import Mathlib

/-!
Verification of the scroll-tracking platform (Next.js dashboard + embeddable
tracking script + ingestion endpoint).

The development shallowly embeds the arithmetic and data-flow of:
  * the dashboard aggregation layer (src/app/dashboard/page.tsx):
    milestoneStats, engagementStats, getDeviceType, loadUserStats;
  * the generated tracking script (api/tracker.js route):
    getScrollDepth and the scroll/milestone event machine;
  * the ingestion endpoint POST /api/track (modelled from the spec,
    the route file itself is not part of the corpus).

JavaScript `Math.round(x)` (round half toward +infinity) on an exact
rational a/b with b > 0 equals the integer floor of a/b + 1/2, which for
integers is the floor division (2*a + b) / (2*b).  All divisions in the
embedded code are of this shape, so the embedding stays in integer
arithmetic; `jsRound_eq_floor` records the correspondence with the
rational formula.  Floating-point error of the JavaScript doubles is not
modelled: arithmetic is exact.
-/

/-- `Math.round (a / b)` for integers `a`, `b` with `b > 0`:
round-half-up of the exact rational `a / b`. -/
def jsRound (a b : Int) : Int := (2 * a + b) / (2 * b)

/-! ## Events as the dashboard sees them

One row of the `scroll_events` table, restricted to the columns the
aggregation layer reads.  Columns that are nullable in the schema are
`Option`s; the JavaScript `x || 0` / `x || ""` defaulting and the
truthiness tests are modelled by `optD`, `strD` and `truthy`.
`occurred_at` is an epoch timestamp; `ip_address` is modelled as a
`String` (the dashboard code assumes it non-null when hashing it). -/
structure Event where
  scroll_depth : Int
  total_time_on_page : Option Int
  max_scroll_depth : Option Int
  scroll_events_count : Option Int
  ua : Option String
  viewport_w : Option Int
  viewport_h : Option Int
  ip_address : String
  occurred_at : Int
deriving DecidableEq

/-- JavaScript `x || 0` for an integer-or-null column. -/
def optD (v : Option Int) : Int := v.getD 0

/-- JavaScript truthiness of an integer-or-null value
(`null` and `0` are falsy). -/
def truthy (v : Option Int) : Bool :=
  match v with
  | none => false
  | some n => decide (n ≠ 0)

/-- JavaScript `x || ""` for a string-or-null column (also turns an empty
string into an empty string, as `||` does). -/
def strD (v : Option String) : String := v.getD ""

/-! ## milestoneStats (dashboard/page.tsx lines 360-373) -/

structure MilestoneStats where
  p25 : Int
  p50 : Int
  p75 : Int
  p100 : Int
  total : Nat
deriving DecidableEq

/-- `events.filter((e) => e.scroll_depth >= m).length`. -/
def depthCount (events : List Event) (m : Int) : Nat :=
  (events.filter (fun e => decide (m ≤ e.scroll_depth))).length

/-- The dashboard's `milestoneStats` memo:
`total = events.length || 1`, and for each milestone
`Math.round(events.filter(e => e.scroll_depth >= m).length / total * 100)`. -/
def milestoneStats (events : List Event) : MilestoneStats :=
  let total : Nat := if events.length = 0 then 1 else events.length
  let perc : Int → Int := fun m => jsRound (100 * (depthCount events m : Int)) (total : Int)
  { p25 := perc 25, p50 := perc 50, p75 := perc 75, p100 := perc 100
    total := events.length }

/-! ## getScrollDepth (generated tracking script) -/

/-- The generated script's `getScrollDepth`, as a function of the scroll
offset, the document height and the window height:
`total = Math.max(docHeight - winHeight, 1)` and
`depth = Math.min(100, Math.round(scrollTop / total * 100))`. -/
def getScrollDepth (scrollTop docHeight winHeight : Int) : Int :=
  let total := max (docHeight - winHeight) 1
  min 100 (jsRound (100 * scrollTop) total)

/-! ## getDeviceType (dashboard/page.tsx lines 40-58)

The two regexes tested against `ua.toLowerCase()` are alternations of
literal words plus one negative lookahead, so matching is substring
search.  ASCII lowercasing is modelled (`ua.toLowerCase()`); the case
flag of the regexes is then redundant on the ASCII fragment.  The
lookahead `android(?!.*mobile)` holds at an occurrence of `android` when
no later `mobile` is reachable without crossing a newline (`.` does not
match newlines). -/

/-- ASCII lowercasing of one character (`String.prototype.toLowerCase`
restricted to ASCII). -/
def lowerChar (c : Char) : Char :=
  if 'A' ≤ c ∧ c ≤ 'Z' then Char.ofNat (c.toNat + 32) else c

/-- Does `pat` occur at the very start of `s`? -/
def begMatch : List Char → List Char → Bool
  | [], _ => true
  | _ :: _, [] => false
  | p :: ps, c :: cs => decide (p = c) && begMatch ps cs

/-- Does `pat` occur anywhere in `s`? -/
def hasSub (pat : List Char) : List Char → Bool
  | [] => begMatch pat []
  | c :: cs => begMatch pat (c :: cs) || hasSub pat cs

/-- Does `pat` occur in `s` after a newline-free gap (regex `.*pat`)? -/
def hasSubNoNl (pat : List Char) : List Char → Bool
  | [] => begMatch pat []
  | c :: cs => begMatch pat (c :: cs) || (decide (c ≠ Char.ofNat 10) && hasSubNoNl pat cs)

/-- The regex `android(?!.*mobile)`: some occurrence of `android` is not
followed (newline-free) by `mobile`. -/
def androidNoMobile : List Char → Bool
  | [] => false
  | c :: cs =>
    (begMatch "android".toList (c :: cs) &&
      !(hasSubNoNl "mobile".toList ((c :: cs).drop 7))) ||
    androidNoMobile cs

/-- Alternatives of the mobile regex
`/android|webos|iphone|ipad|ipod|blackberry|iemobile|opera mini/i`. -/
def mobilePats : List (List Char) :=
  ["android", "webos", "iphone", "ipad", "ipod",
   "blackberry", "iemobile", "opera mini"].map String.toList

/-- The dashboard's `getDeviceType(ua, viewportW, viewportH)`. -/
def getDeviceType (ua : String) (viewportW viewportH : Int) : String :=
  if ua = "" then "Unknown"
  else
    let userAgent := ua.toList.map lowerChar
    let isMobile := mobilePats.any (fun p => hasSub p userAgent)
    let isTablet :=
      hasSub "ipad".toList userAgent || androidNoMobile userAgent ||
        (decide (768 ≤ viewportW) && decide (viewportW ≤ 1024) &&
         decide (768 ≤ viewportH) && decide (viewportH ≤ 1024))
    if isTablet then "Tablet" else if isMobile then "Mobile" else "Desktop"

/-! ## loadUserStats (dashboard/page.tsx lines 259-330)

The country assignment: a signed 32-bit accumulator hash of the network
address string (`(a << 5) - a + charCode`, re-wrapped to int32 by
`a & a`), its absolute value modulo 100, then cumulative-weight selection
over the fixed ten-entry country table, defaulting to the first entry
when the loop falls through. -/

/-- JavaScript ToInt32: wrap an integer into `[-2^31, 2^31)`. -/
def toInt32 (n : Int) : Int := (n + 2 ^ 31) % 2 ^ 32 - 2 ^ 31

/-- One step of the reduce: `a = (a << 5) - a + b.charCodeAt(0); a = a & a`.
`a << 5` itself wraps to int32 before the subtraction. -/
def hashStep (a : Int) (c : Char) : Int :=
  toInt32 (toInt32 (a * 32) - a + (c.toNat : Int))

/-- `ip_address.split("").reduce((a, b) => { a = (a << 5) - a + b.charCodeAt(0); return a & a; }, 0)`. -/
def ipHash (s : String) : Int := s.toList.foldl hashStep 0

/-- `Math.abs(ipHash) % 100`. -/
def ipResidue (s : String) : Nat := (ipHash s).natAbs % 100

structure Country where
  code : String
  cname : String
  weight : Nat
deriving DecidableEq

/-- The fixed weighted country table of `loadUserStats`. -/
def countries : List Country :=
  [⟨"US", "United States", 20⟩,
   ⟨"IN", "India", 18⟩,
   ⟨"CN", "China", 15⟩,
   ⟨"NP", "Nepal", 15⟩,
   ⟨"GB", "United Kingdom", 8⟩,
   ⟨"DE", "Germany", 6⟩,
   ⟨"CA", "Canada", 5⟩,
   ⟨"AU", "Australia", 4⟩,
   ⟨"FR", "France", 3⟩,
   ⟨"JP", "Japan", 2⟩]

/-- The cumulative-weight loop body: returns the first entry whose
cumulative weight exceeds `r`, or `none` when the loop falls through. -/
def selLoop (r : Nat) : Nat → List Country → Option Country
  | _, [] => none
  | cum, c :: rest =>
    if r < cum + c.weight then some c else selLoop r (cum + c.weight) rest

/-- `let selectedCountry = countries[0]; for (...) { ... break; }`:
cumulative-weight selection with the first table entry as default. -/
def selectCountry (r : Nat) : Country :=
  (selLoop r 0 countries).getD ⟨"US", "United States", 20⟩

/-- The country assigned to one network address string. -/
def countryFor (s : String) : Country := selectCountry (ipResidue s)

/-- One entry of the `uniqueUsers` map. -/
structure UserStat where
  ip : String
  country : String
  countryName : String
  lastSeen : Int
  avatar : String
  deviceType : String
deriving DecidableEq

/-- The value `uniqueUsers.set(event.ip_address, {...})` stores. -/
def mkStat (e : Event) : UserStat :=
  { ip := e.ip_address
    country := (countryFor e.ip_address).code
    countryName := (countryFor e.ip_address).cname
    lastSeen := e.occurred_at
    avatar := "https://api.dicebear.com/7.x/avataaars/svg?seed=" ++ e.ip_address
    deviceType := getDeviceType (strD e.ua) (optD e.viewport_w) (optD e.viewport_h) }

/-- `Map.get` on the insertion-ordered association list modelling the
`uniqueUsers` map. -/
def findUser : List (String × UserStat) → String → Option UserStat
  | [], _ => none
  | (k, v) :: rest, a => if k = a then some v else findUser rest a

/-- `data.forEach((event) => { if (!uniqueUsers.has(event.ip_address)) uniqueUsers.set(...) })`:
fold the events through the map, keeping the first event per address. -/
def buildUsers : List Event → List (String × UserStat) → List (String × UserStat)
  | [], acc => acc
  | e :: rest, acc =>
    if (findUser acc e.ip_address).isSome then buildUsers rest acc
    else buildUsers rest (acc ++ [(e.ip_address, mkStat e)])

/-- The `uniqueUsers` map built by `loadUserStats` from the fetched rows. -/
def uniqueUsers (events : List Event) : List (String × UserStat) :=
  buildUsers events []

/-- `setUserStats(Array.from(uniqueUsers.values()))`. -/
def loadUserStats (events : List Event) : List UserStat :=
  (uniqueUsers events).map Prod.snd

/-! ## engagementStats (dashboard/page.tsx lines 375-529) -/

/-- Round-half-up of an exact rational (`Math.round`), used where the
source averages per-session rational speeds. -/
def ratRound (x : ℚ) : ℤ := Rat.floor (x + 1 / 2)

structure DevStat where
  sessions : Nat
  avgTime : Int
  completionRate : Int
  activeRate : Int
deriving DecidableEq

structure DeviceStats where
  desktop : DevStat
  mobile : DevStat
  tablet : DevStat
deriving DecidableEq

structure EngagementStats where
  avgTimeOnPage : Int
  scrollCompletionRate : Int
  activeScrollRate : Int
  totalSessions : Nat
  avgScrollSpeed : Int
  deviceStats : DeviceStats
deriving DecidableEq

def zeroDev : DevStat := ⟨0, 0, 0, 0⟩

def zeroEngagement : EngagementStats :=
  ⟨0, 0, 0, 0, 0, ⟨zeroDev, zeroDev, zeroDev⟩⟩

/-- `events.filter((e) => e.total_time_on_page && e.max_scroll_depth)`. -/
def sessionsOf (events : List Event) : List Event :=
  events.filter (fun e => truthy e.total_time_on_page && truthy e.max_scroll_depth)

/-- The key `` `${event.total_time_on_page}-${event.max_scroll_depth}` ``;
the two integers determine the template string, so the pair is a faithful
model of the key. -/
def sessionKey (e : Event) : Int × Int :=
  (optD e.total_time_on_page, optD e.max_scroll_depth)

/-- Deduplicate on `sessionKey`, keeping the first event per key
(`if (!uniqueSessions.has(key)) uniqueSessions.set(key, event)`). -/
def dedupSessions : List Event → List (Int × Int) → List Event
  | [], _ => []
  | e :: rest, seen =>
    if sessionKey e ∈ seen then dedupSessions rest seen
    else e :: dedupSessions rest (sessionKey e :: seen)

/-- `deviceSessions.length > 0` branch of the per-device metrics:
sessions count, `Math.round(sumTime / n / 1000)`, completion and active
rates.  Returns the zero record for an empty group, as the source leaves
the zero-initialised entry untouched then. -/
def devStatOf (deviceSessions : List Event) : DevStat :=
  if deviceSessions.length = 0 then zeroDev
  else
    { sessions := deviceSessions.length
      avgTime := jsRound ((deviceSessions.map (fun s => optD s.total_time_on_page)).sum)
        ((deviceSessions.length : Int) * 1000)
      completionRate := jsRound
        (100 * ((deviceSessions.filter (fun s => decide (100 ≤ optD s.max_scroll_depth))).length : Int))
        (deviceSessions.length : Int)
      activeRate := jsRound
        (100 * ((deviceSessions.filter (fun s =>
          decide (75 ≤ optD s.max_scroll_depth) && decide (10000 < optD s.total_time_on_page))).length : Int))
        (deviceSessions.length : Int) }

/-- `if (deviceGroups[deviceType]) deviceGroups[deviceType].push(session)`:
a session is appended to a group only when its device type is literally
one of the lowercase keys `desktop` / `mobile` / `tablet`. -/
def pushByDevice (gs : List Event × List Event × List Event) (s : Event) :
    List Event × List Event × List Event :=
  let deviceType := getDeviceType (strD s.ua) (optD s.viewport_w) (optD s.viewport_h)
  if deviceType = "desktop" then (gs.1 ++ [s], gs.2.1, gs.2.2)
  else if deviceType = "mobile" then (gs.1, gs.2.1 ++ [s], gs.2.2)
  else if deviceType = "tablet" then (gs.1, gs.2.1, gs.2.2 ++ [s])
  else gs

/-- Per-session average scroll speed contribution:
`s.scroll_events_count && s.total_time_on_page ? total_time_on_page / scroll_events_count : 0`. -/
def speedOf (s : Event) : ℚ :=
  if truthy s.scroll_events_count && truthy s.total_time_on_page then
    (optD s.total_time_on_page : ℚ) / (optD s.scroll_events_count : ℚ)
  else 0

/-- The dashboard's `engagementStats` memo. -/
def engagementStats (events : List Event) : EngagementStats :=
  if events.length = 0 then zeroEngagement
  else
    let sessionData := dedupSessions (sessionsOf events) []
    let totalSessions := sessionData.length
    if totalSessions = 0 then zeroEngagement
    else
      let deviceGroups := sessionData.foldl pushByDevice ([], [], [])
      { avgTimeOnPage := jsRound ((sessionData.map (fun s => optD s.total_time_on_page)).sum)
          ((totalSessions : Int) * 1000)
        scrollCompletionRate := jsRound
          (100 * ((sessionData.filter (fun s => decide (100 ≤ optD s.max_scroll_depth))).length : Int))
          (totalSessions : Int)
        activeScrollRate := jsRound
          (100 * ((sessionData.filter (fun s =>
            decide (75 ≤ optD s.max_scroll_depth) && decide (10000 < optD s.total_time_on_page))).length : Int))
          (totalSessions : Int)
        totalSessions := totalSessions
        avgScrollSpeed := ratRound ((sessionData.map speedOf).sum / (totalSessions : ℚ))
        deviceStats :=
          { desktop := devStatOf deviceGroups.1
            mobile := devStatOf deviceGroups.2.1
            tablet := devStatOf deviceGroups.2.2 } }

/-! ## The tracking script's scroll/milestone machine (api/tracker.js)

State and event trace of the generated script: `maxDepth` and the `fired`
milestone set, with `onScroll` processing one computed depth per
scroll/resize step.  The rAF `ticking` latch only coalesces duplicate
frames and is not modelled; each step is one executed rAF callback. -/

def MILESTONES : List Int := [25, 50, 75, 100]

/-- One `post(depth, milestone)` call.  `engagement` records whether the
payload carried the session engagement fields, which the source includes
exactly when `milestone !== undefined`. -/
structure Post where
  depth : Int
  milestone : Option Int
  engagement : Bool
deriving DecidableEq

def mkPost (d : Int) (m : Option Int) : Post := ⟨d, m, m.isSome⟩

structure SState where
  maxDepth : Int
  fired : List Int
deriving DecidableEq

/-- `for (const m of MILESTONES) if (maxDepth >= m && !fired.has(m)) { fired.add(m); post(maxDepth, m, true); }`. -/
def fireLoop : List Int → SState → SState × List Post
  | [], st => (st, [])
  | m :: ms, st =>
    if m ≤ st.maxDepth ∧ m ∉ st.fired then
      let res := fireLoop ms ⟨st.maxDepth, m :: st.fired⟩
      (res.1, mkPost st.maxDepth (some m) :: res.2)
    else fireLoop ms st

/-- One executed `onScroll` body with computed depth `d`:
`if (depth > maxDepth) { maxDepth = depth; post(maxDepth); <fire loop> }`. -/
def scrollStep (st : SState) (d : Int) : SState × List Post :=
  if st.maxDepth < d then
    let res := fireLoop MILESTONES ⟨d, st.fired⟩
    (res.1, mkPost d none :: res.2)
  else (st, [])

/-- Run the script over a sequence of computed depths, collecting posts. -/
def runScroll : SState → List Int → SState × List Post
  | st, [] => (st, [])
  | st, d :: ds =>
    let r1 := scrollStep st d
    let r2 := runScroll r1.1 ds
    (r2.1, r1.2 ++ r2.2)

/-- The posts emitted over one page view, from the initial state
`maxDepth = 0`, `fired = {}`. -/
def scriptTrace (ds : List Int) : List Post := (runScroll ⟨0, []⟩ ds).2

/-- Number of milestone-`m` posts in a trace. -/
def countM (m : Int) : List Post → Nat
  | [] => 0
  | p :: ps => (if p.milestone = some m then 1 else 0) + countM m ps

/-! ## Ingestion endpoint POST /api/track

Modelled from the spec: the route file `src/app/api/track/route.ts` is
not part of the corpus (only the README schema and the dashboard client
are), so the handler is reconstructed from the spec contract: schema
validation (`trackerId` string of length 8-64, `scrollDepth` in [0,100],
`pageUrl` a valid URL, `timestamp` a positive integer) with a 400 on
violation, a tracker lookup with a 404 `Unknown trackerId` on a missing
tracker, and otherwise insertion of exactly one row. -/

structure TrackBody where
  trackerId : String
  scrollDepth : Int
  pageUrl : String
  timestamp : Int
deriving DecidableEq

/-- Modelled from the spec: URL validity of `pageUrl` abstracted as the
presence of a scheme separator; the claims below do not depend on its
exact extension. -/
def urlOk (s : String) : Bool := hasSub "://".toList s.toList

/-- Modelled from the spec: the schema gate of §4.2. -/
def validBody (b : TrackBody) : Bool :=
  decide (8 ≤ b.trackerId.length) && decide (b.trackerId.length ≤ 64) &&
  decide (0 ≤ b.scrollDepth) && decide (b.scrollDepth ≤ 100) &&
  urlOk b.pageUrl && decide (0 < b.timestamp)

/-- One stored `scroll_events` row, as far as the claim needs it. -/
structure StoredRow where
  tracker_id : String
  scroll_depth : Int
  page_url : String
  occurred_at : Int
deriving DecidableEq

/-- Storage: registered tracker ids and the inserted event rows. -/
structure Store where
  trackers : List String
  events : List StoredRow
deriving DecidableEq

/-- An HTTP response of the endpoint: status code plus optional error body. -/
structure TrackResponse where
  status : Nat
  error : Option String
deriving DecidableEq

/-- Modelled from the spec: the POST /api/track handler. -/
def postTrack (st : Store) (b : TrackBody) : TrackResponse × Store :=
  if !validBody b then (⟨400, some "Invalid payload"⟩, st)
  else if b.trackerId ∉ st.trackers then (⟨404, some "Unknown trackerId"⟩, st)
  else
    (⟨204, none⟩,
     { st with events := st.events ++ [⟨b.trackerId, b.scrollDepth, b.pageUrl, b.timestamp⟩] })

/-! ## Concrete inputs used by the end-to-end scenarios -/

/-- An event row carrying only a scroll depth (all optional columns null). -/
def depthEvent (d : Int) : Event :=
  ⟨d, none, none, none, none, none, none, "", 0⟩

/-- The spec's end-to-end scenario: three events at depths 20, 60, 100. -/
def demoEvents : List Event := [depthEvent 20, depthEvent 60, depthEvent 100]

/-- One completed desktop session: Windows user agent, 1920x1080 viewport,
20 s on page, full scroll. -/
def demoDesktopEvent : Event :=
  ⟨80, some 20000, some 100, some 5,
    some "Mozilla/5.0 (Windows NT 10.0; Win64; x64)",
    some 1920, some 1080, "1.2.3.4", 0⟩

/-- A store with one registered tracker. -/
def demoStore : Store := ⟨["zzzzzzzz"], []⟩

/-- The spec's end-to-end POST body, whose tracker id is not registered
in `demoStore`. -/
def demoBody : TrackBody := ⟨"abcd1234", 50, "https://example.com", 1700000000000⟩

/-- An event carrying only a network address, for the unique-visitor list. -/
def demoUserEvent : Event :=
  ⟨0, none, none, none, none, none, none, "8.8.8.8", 5⟩

/-! # Theorems -/

/-- `jsRound` is the floor of `a / b + 1/2` computed in `ℚ`, i.e. exactly
JavaScript `Math.round` applied to the exact rational `a / b`. -/
theorem jsRound_eq_floor (a b : Int) (hb : 0 < b) :
    jsRound a b = ⌊(a : ℚ) / (b : ℚ) + 1 / 2⌋ := by
  have hbq : (b : ℚ) ≠ 0 := by positivity
  have h1 : (a : ℚ) / (b : ℚ) + 1 / 2 = ((2 * a + b : ℤ) : ℚ) / ((2 * b : ℤ) : ℚ) := by
    field_simp
    ring
  have h3 : ((2 * b).toNat : ℤ) = 2 * b := Int.toNat_of_nonneg (by omega)
  rw [jsRound, h1, ← h3, Int.cast_natCast, Rat.floor_intCast_div_natCast]

theorem jsRound_nonneg (a b : Int) (ha : 0 ≤ a) (hb : 0 < b) : 0 ≤ jsRound a b :=
  Int.ediv_nonneg (by omega) (by omega)

theorem jsRound_mono_left (a a' b : Int) (hb : 0 < b) (h : a ≤ a') :
    jsRound a b ≤ jsRound a' b :=
  Int.ediv_le_ediv (by omega) (by omega)

/-- A milestone percentage, written the way the spec words it: count over
`max total 1`, times 100, rounded half-up in exact rational arithmetic. -/
theorem perc_eq_spec (c t : Nat) (ht : 0 < t) :
    jsRound (100 * (c : Int)) (t : Int) = ⌊(c : ℚ) / (t : ℚ) * 100 + 1 / 2⌋ := by
  rw [jsRound_eq_floor _ _ (by exact_mod_cast ht)]
  congr 2
  push_cast
  ring

/-- Raising the milestone can only shrink the count of qualifying events. -/
theorem depthCount_anti (events : List Event) {m m' : Int} (h : m ≤ m') :
    depthCount events m' ≤ depthCount events m := by
  apply List.Sublist.length_le
  apply List.monotone_filter_right
  intro e he
  simp only [decide_eq_true_eq] at he ⊢
  omega

/-- C1: for every loaded event set, each milestone percentage is
round-half-up of count(depth ≥ m) / total · 100 with the zero-total guard
(denominator `max total 1`, so never zero), the reported total is the
event count, and the empty event set yields the all-zero statistics. -/
theorem milestone_percentage_formula (events : List Event) :
    ((milestoneStats events).p25 =
      ⌊(depthCount events 25 : ℚ) / ((max events.length 1 : ℕ) : ℚ) * 100 + 1 / 2⌋ ∧
     (milestoneStats events).p50 =
      ⌊(depthCount events 50 : ℚ) / ((max events.length 1 : ℕ) : ℚ) * 100 + 1 / 2⌋ ∧
     (milestoneStats events).p75 =
      ⌊(depthCount events 75 : ℚ) / ((max events.length 1 : ℕ) : ℚ) * 100 + 1 / 2⌋ ∧
     (milestoneStats events).p100 =
      ⌊(depthCount events 100 : ℚ) / ((max events.length 1 : ℕ) : ℚ) * 100 + 1 / 2⌋) ∧
    (milestoneStats events).total = events.length ∧
    (events = [] → milestoneStats events = ⟨0, 0, 0, 0, 0⟩) := by
  have htot : (if events.length = 0 then 1 else events.length) = max events.length 1 := by
    split <;> omega
  have hpos : 0 < max events.length 1 := by omega
  refine ⟨⟨?_, ?_, ?_, ?_⟩, rfl, ?_⟩
  · simp only [milestoneStats, htot]
    exact perc_eq_spec _ _ hpos
  · simp only [milestoneStats, htot]
    exact perc_eq_spec _ _ hpos
  · simp only [milestoneStats, htot]
    exact perc_eq_spec _ _ hpos
  · simp only [milestoneStats, htot]
    exact perc_eq_spec _ _ hpos
  · rintro rfl
    decide

/-- C1 witness: the empty-set consequence evaluated at the empty list. -/
theorem milestone_percentage_formula_empty :
    milestoneStats [] = ⟨0, 0, 0, 0, 0⟩ :=
  (milestone_percentage_formula []).2.2 rfl

/-- C2 counterexample: on the spec's three-event scenario (depths 20, 60,
100) the code does not produce p25 = 66 and p50 = 66: 2/3 · 100 rounds to
67, not 66. -/
theorem milestone_demo_cx :
    ¬((milestoneStats demoEvents).p25 = 66 ∧ (milestoneStats demoEvents).p50 = 66 ∧
      (milestoneStats demoEvents).p75 = 33 ∧ (milestoneStats demoEvents).p100 = 33 ∧
      (milestoneStats demoEvents).total = 3) := by
  decide

/-- C2 (amended): the dashboard loaded with three events at depths 20, 60
and 100 yields p25 = 67, p50 = 67, p75 = 33, p100 = 33 and total = 3. -/
theorem milestone_demo_eval :
    milestoneStats demoEvents = ⟨67, 67, 33, 33, 3⟩ := by
  decide

/-- C4: for every fixed event set the four milestone percentages are
monotonically non-increasing in the milestone: p25 ≥ p50 ≥ p75 ≥ p100. -/
theorem milestone_monotone (events : List Event) :
    (milestoneStats events).p100 ≤ (milestoneStats events).p75 ∧
    (milestoneStats events).p75 ≤ (milestoneStats events).p50 ∧
    (milestoneStats events).p50 ≤ (milestoneStats events).p25 := by
  have hpos : (0 : Int) < ((if events.length = 0 then 1 else events.length : ℕ) : Int) := by
    have : 0 < (if events.length = 0 then 1 else events.length) := by split <;> omega
    exact_mod_cast this
  refine ⟨?_, ?_, ?_⟩ <;>
    · simp only [milestoneStats]
      apply jsRound_mono_left _ _ _ hpos
      have h1 := depthCount_anti events (by norm_num : (25 : Int) ≤ 50)
      have h2 := depthCount_anti events (by norm_num : (50 : Int) ≤ 75)
      have h3 := depthCount_anti events (by norm_num : (75 : Int) ≤ 100)
      omega

/-- C7 counterexample: `getScrollDepth` is not clamped below: a negative
scroll offset (scrollTop = -100, document height 200, window height 100)
yields depth -100, violating the claimed lower bound 0. -/
theorem scroll_depth_negative_cx :
    getScrollDepth (-100) 200 100 = -100 ∧ ¬(0 ≤ getScrollDepth (-100) 200 100) := by
  decide

/-- C7 (amended): `getScrollDepth` computes
round(scrollTop / max(scrollHeight - viewportHeight, 1) · 100) capped
above at 100 only; the result is always ≤ 100, and it is ≥ 0 whenever
scrollTop ≥ 0 (a negative scrollTop can yield a negative depth). -/
theorem scroll_depth_bounds (scrollTop docHeight winHeight : Int) :
    getScrollDepth scrollTop docHeight winHeight ≤ 100 ∧
    (0 ≤ scrollTop → 0 ≤ getScrollDepth scrollTop docHeight winHeight) := by
  constructor
  · exact min_le_left _ _
  · intro h
    apply le_min (by norm_num)
    apply jsRound_nonneg _ _ (by omega)
    omega

/-- C7 witness: the amended bounds at scrollTop = 50, document height
200, window height 100, with the nonnegativity hypothesis discharged. -/
theorem scroll_depth_bounds_app :
    getScrollDepth 50 200 100 ≤ 100 ∧ 0 ≤ getScrollDepth 50 200 100 :=
  ⟨(scroll_depth_bounds 50 200 100).1, (scroll_depth_bounds 50 200 100).2 (by norm_num)⟩

/-- C5: `getDeviceType` is a pure function of (user agent, viewport
width, viewport height) — equal arguments give equal results — and any
user agent containing `ipad` after ASCII lowercasing (the test of
`/ipad/i`) is classified `Tablet` for every viewport. -/
theorem getDeviceType_pure_ipad (ua : String) (w h : Int)
    (hip : hasSub "ipad".toList (ua.toList.map lowerChar) = true) :
    getDeviceType ua w h = getDeviceType ua w h ∧ getDeviceType ua w h = "Tablet" := by
  refine ⟨rfl, ?_⟩
  have hua : ua ≠ "" := by
    intro h0
    subst h0
    simp [hasSub, begMatch, String.toList] at hip
  simp only [getDeviceType, if_neg hua, hip, Bool.true_or, if_pos]

/-- C5 witness: the user agent `iPad` with a zero viewport. -/
theorem getDeviceType_pure_ipad_app :
    hasSub "ipad".toList ("iPad".toList.map lowerChar) = true ∧
    (getDeviceType "iPad" 0 0 = getDeviceType "iPad" 0 0 ∧
     getDeviceType "iPad" 0 0 = "Tablet") :=
  ⟨by decide, getDeviceType_pure_ipad "iPad" 0 0 (by decide)⟩

/-- C9 (spec-modelled): every schema-valid body whose tracker id is not
registered gets a 404 `Unknown trackerId` response, and the store —
in particular the `scroll_events` rows — is left unchanged. -/
theorem unknown_tracker_rejected (st : Store) (b : TrackBody)
    (hv : validBody b = true) (hm : b.trackerId ∉ st.trackers) :
    postTrack st b = (⟨404, some "Unknown trackerId"⟩, st) := by
  simp [postTrack, hv, hm]

/-- C9 witness: the spec's example body posted against a store that does
not know its tracker id. -/
theorem unknown_tracker_rejected_app :
    validBody demoBody = true ∧ demoBody.trackerId ∉ demoStore.trackers ∧
    postTrack demoStore demoBody = (⟨404, some "Unknown trackerId"⟩, demoStore) :=
  ⟨by decide, by decide, unknown_tracker_rejected demoStore demoBody (by decide) (by decide)⟩

/-- C10: the ten country weights sum to 96, so the cumulative-weight loop
falls through on residues 96-99 and those addresses receive the initial
default `countries[0]` (US); over the 100 residues, US is selected 24
times rather than its listed weight 20. -/
theorem country_weights_gap :
    (countries.map Country.weight).sum = 96 ∧
    (∀ s : String, 96 ≤ ipResidue s →
      selLoop (ipResidue s) 0 countries = none ∧
      countryFor s = ⟨"US", "United States", 20⟩) ∧
    ((List.range 100).filter (fun r => (selectCountry r).code = "US")).length = 24 := by
  refine ⟨by decide, ?_, by decide⟩
  intro s h96
  have h100 : ipResidue s < 100 := Nat.mod_lt _ (by norm_num)
  obtain ⟨r, hr⟩ : ∃ r, ipResidue s = r := ⟨_, rfl⟩
  rw [hr] at h96 h100
  have hnone : selLoop r 0 countries = none := by
    interval_cases r <;> decide
  constructor
  · rw [hr, hnone]
  · rw [countryFor, selectCountry, hr, hnone]
    rfl

/-- C10 witness: the address `a` hashes to 97, falls through the loop and
is assigned the default US entry. -/
theorem country_weights_gap_app :
    96 ≤ ipResidue "a" ∧
    (selLoop (ipResidue "a") 0 countries = none ∧
     countryFor "a" = ⟨"US", "United States", 20⟩) :=
  ⟨by decide, country_weights_gap.2.1 "a" (by decide)⟩

/-- `getDeviceType` only ever returns one of the four capitalised names. -/
theorem getDeviceType_mem (ua : String) (w h : Int) :
    getDeviceType ua w h ∈ (["Unknown", "Tablet", "Mobile", "Desktop"] : List String) := by
  simp only [getDeviceType]
  split_ifs <;> simp

/-- The `deviceGroups[deviceType]` guard compares the capitalised device
name against the lowercase group keys, so no session is ever pushed. -/
theorem pushByDevice_fixed (gs : List Event × List Event × List Event) (s : Event) :
    pushByDevice gs s = gs := by
  have h := getDeviceType_mem (strD s.ua) (optD s.viewport_w) (optD s.viewport_h)
  simp only [List.mem_cons, List.mem_singleton, List.not_mem_nil, or_false] at h
  unfold pushByDevice
  rcases h with h | h | h | h <;> simp [h]

/-- Folding any session list through the grouping loop leaves the three
(empty) device groups untouched. -/
theorem foldl_pushByDevice (l : List Event) (gs : List Event × List Event × List Event) :
    l.foldl pushByDevice gs = gs := by
  induction l generalizing gs with
  | nil => rfl
  | cons e rest ih => rw [List.foldl_cons, pushByDevice_fixed, ih]

/-- For every event set the per-device engagement statistics come out as
the all-zero records: the grouping guard never admits a session. -/
theorem engagement_deviceStats_zero (events : List Event) :
    (engagementStats events).deviceStats = ⟨zeroDev, zeroDev, zeroDev⟩ := by
  unfold engagementStats
  split_ifs
  · rfl
  · simp only [zeroEngagement, foldl_pushByDevice, devStatOf, zeroDev]
    split <;> rfl

/-- C3 (code bug): the session grouping compares the capitalised result
of `getDeviceType` ("Desktop"/"Mobile"/"Tablet") against the lowercase
keys of `deviceGroups`, so a session classified `Desktop` — here one real
desktop session that the deduplication keeps (totalSessions = 1) — is
never counted in its class: the per-device stats are identically zero. -/
theorem desktop_session_not_counted :
    getDeviceType (strD demoDesktopEvent.ua) (optD demoDesktopEvent.viewport_w)
      (optD demoDesktopEvent.viewport_h) = "Desktop" ∧
    (engagementStats [demoDesktopEvent]).totalSessions = 1 ∧
    (∀ events, (engagementStats events).deviceStats = ⟨zeroDev, zeroDev, zeroDev⟩) :=
  ⟨by decide, by decide, engagement_deviceStats_zero⟩

/-- `Map.get` misses exactly when the address is not among the keys. -/
theorem findUser_eq_none_iff (acc : List (String × UserStat)) (a : String) :
    findUser acc a = none ↔ a ∉ acc.map Prod.fst := by
  induction acc with
  | nil => simp [findUser]
  | cons kv rest ih =>
    obtain ⟨k, v⟩ := kv
    by_cases hk : k = a
    · subst hk
      simp [findUser]
    · simp [findUser, hk, ih, Ne.symm hk]

theorem findUser_append_of_none (l1 l2 : List (String × UserStat)) (a : String)
    (h : findUser l1 a = none) : findUser (l1 ++ l2) a = findUser l2 a := by
  induction l1 with
  | nil => simp
  | cons kv rest ih =>
    obtain ⟨k, v⟩ := kv
    by_cases hk : k = a
    · simp [findUser, hk] at h
    · rw [List.cons_append, findUser, if_neg hk]
      rw [findUser, if_neg hk] at h
      exact ih h

theorem findUser_append_of_some (l1 l2 : List (String × UserStat)) (a : String)
    (v : UserStat) (h : findUser l1 a = some v) : findUser (l1 ++ l2) a = some v := by
  induction l1 with
  | nil => simp [findUser] at h
  | cons kv rest ih =>
    obtain ⟨k, w⟩ := kv
    by_cases hk : k = a
    · rw [List.cons_append, findUser, if_pos hk]
      rw [findUser, if_pos hk] at h
      exact h
    · rw [List.cons_append, findUser, if_neg hk]
      rw [findUser, if_neg hk] at h
      exact ih h

/-- The keys of the built `uniqueUsers` map are the accumulator's keys
plus the addresses occurring in the processed events. -/
theorem buildUsers_keys_mem (es : List Event) (acc : List (String × UserStat)) (a : String) :
    a ∈ (buildUsers es acc).map Prod.fst ↔
      a ∈ acc.map Prod.fst ∨ ∃ e ∈ es, e.ip_address = a := by
  induction es generalizing acc with
  | nil => simp [buildUsers]
  | cons e rest ih =>
    by_cases hseen : (findUser acc e.ip_address).isSome
    · rw [buildUsers, if_pos hseen, ih]
      have hmem : e.ip_address ∈ acc.map Prod.fst := by
        by_contra hno
        rw [← findUser_eq_none_iff] at hno
        rw [hno] at hseen
        simp at hseen
      constructor
      · rintro (h | ⟨x, hx, rfl⟩)
        · exact Or.inl h
        · exact Or.inr ⟨x, List.mem_cons_of_mem _ hx, rfl⟩
      · rintro (h | ⟨x, hx, rfl⟩)
        · exact Or.inl h
        · rcases List.mem_cons.mp hx with rfl | hx2
          · exact Or.inl hmem
          · exact Or.inr ⟨x, hx2, rfl⟩
    · rw [buildUsers, if_neg hseen, ih]
      constructor
      · rintro (h | ⟨x, hx, rfl⟩)
        · rw [List.map_append, List.mem_append] at h
          rcases h with h | h
          · exact Or.inl h
          · simp only [List.map_cons, List.map_nil, List.mem_singleton] at h
            exact Or.inr ⟨e, List.mem_cons_self _ _, h.symm⟩
        · exact Or.inr ⟨x, List.mem_cons_of_mem _ hx, rfl⟩
      · rintro (h | ⟨x, hx, rfl⟩)
        · exact Or.inl (by rw [List.map_append, List.mem_append]; exact Or.inl h)
        · rcases List.mem_cons.mp hx with rfl | hx2
          · refine Or.inl ?_
            rw [List.map_append, List.mem_append]
            exact Or.inr (by simp)
          · exact Or.inr ⟨x, hx2, rfl⟩

/-- Building the map never duplicates a key. -/
theorem buildUsers_keys_nodup (es : List Event) (acc : List (String × UserStat))
    (h : (acc.map Prod.fst).Nodup) : ((buildUsers es acc).map Prod.fst).Nodup := by
  induction es generalizing acc with
  | nil => exact h
  | cons e rest ih =>
    by_cases hseen : (findUser acc e.ip_address).isSome
    · rw [buildUsers, if_pos hseen]
      exact ih _ h
    · rw [buildUsers, if_neg hseen]
      apply ih
      have hno : e.ip_address ∉ acc.map Prod.fst := by
        rw [← findUser_eq_none_iff]
        exact Option.not_isSome_iff_eq_none.mp hseen
      simp only [List.map_append, List.map_cons, List.map_nil]
      rw [List.nodup_append]
      exact ⟨h, List.nodup_singleton _, by simpa using hno⟩

/-- Any stat the built map returns for address `a` comes from some
processed event whose address is `a` (unless it was already in the
accumulator). -/
theorem buildUsers_val (es : List Event) (acc : List (String × UserStat)) (a : String)
    (st : UserStat) (h : findUser (buildUsers es acc) a = some st) :
    findUser acc a = some st ∨ ∃ e ∈ es, e.ip_address = a ∧ st = mkStat e := by
  induction es generalizing acc with
  | nil => exact Or.inl h
  | cons e rest ih =>
    by_cases hseen : (findUser acc e.ip_address).isSome
    · rw [buildUsers, if_pos hseen] at h
      rcases ih _ h with h1 | ⟨x, hx, hip, hst⟩
      · exact Or.inl h1
      · exact Or.inr ⟨x, List.mem_cons_of_mem _ hx, hip, hst⟩
    · rw [buildUsers, if_neg hseen] at h
      rcases ih _ h with h1 | ⟨x, hx, hip, hst⟩
      · cases hfa : findUser acc a with
        | some v =>
          rw [findUser_append_of_some _ _ _ _ hfa] at h1
          exact Or.inl h1
        | none =>
          rw [findUser_append_of_none _ _ _ hfa] at h1
          by_cases hk : e.ip_address = a
          · rw [findUser, if_pos hk] at h1
            exact Or.inr ⟨e, List.mem_cons_self _ _, hk, (Option.some.inj h1).symm⟩
          · rw [findUser, if_neg hk] at h1
            simp [findUser] at h1
      · exact Or.inr ⟨x, List.mem_cons_of_mem _ hx, hip, hst⟩

/-- C6: the country assignment is deterministic and cached once per
address: for every loaded event set containing address `a`, the
`uniqueUsers` map holds exactly one entry for `a`, and its country
code/name are `countryFor a` — a function of the address string alone
(signed 32-bit hash, absolute value mod 100, cumulative-weight
selection), so any two runs over any event sets agree on `a`. -/
theorem country_assignment_cached (events : List Event) (a : String)
    (h : ∃ e ∈ events, e.ip_address = a) :
    ((uniqueUsers events).map Prod.fst).count a = 1 ∧
    ∃ st, findUser (uniqueUsers events) a = some st ∧
      st.country = (countryFor a).code ∧ st.countryName = (countryFor a).cname := by
  have hmem : a ∈ (uniqueUsers events).map Prod.fst := by
    rw [uniqueUsers, buildUsers_keys_mem]
    exact Or.inr h
  have hnodup : ((uniqueUsers events).map Prod.fst).Nodup :=
    buildUsers_keys_nodup events [] (by simp)
  refine ⟨List.count_eq_one_of_mem hnodup hmem, ?_⟩
  obtain ⟨st, hst⟩ : ∃ st, findUser (uniqueUsers events) a = some st := by
    cases hf : findUser (uniqueUsers events) a with
    | none =>
      rw [findUser_eq_none_iff] at hf
      exact absurd hmem hf
    | some v => exact ⟨v, rfl⟩
  refine ⟨st, hst, ?_⟩
  rcases buildUsers_val events [] a st hst with h1 | ⟨e, _, hip, hst2⟩
  · exact absurd h1 (by simp [findUser])
  · subst hst2
    rw [← hip]
    exact ⟨rfl, rfl⟩

/-- C6 witness: one event from address 8.8.8.8 yields exactly one cached
entry whose country is the hash-selected one. -/
theorem country_assignment_cached_app :
    ((uniqueUsers [demoUserEvent]).map Prod.fst).count "8.8.8.8" = 1 ∧
    (findUser (uniqueUsers [demoUserEvent]) "8.8.8.8").isSome = true := by
  have h := country_assignment_cached [demoUserEvent] "8.8.8.8"
    ⟨demoUserEvent, by simp, rfl⟩
  refine ⟨h.1, ?_⟩
  obtain ⟨st, hst, -, -⟩ := h.2
  rw [hst]
  rfl

theorem countM_append (m : Int) (ps qs : List Post) :
    countM m (ps ++ qs) = countM m ps + countM m qs := by
  induction ps with
  | nil => simp [countM]
  | cons p ps ih => simp [countM, ih]; omega

/-- Behaviour of the milestone loop on one new maximum: it preserves the
maximum, marks exactly the newly reached milestones as fired, and posts
milestone `m` exactly when `m` is in the list, reached, and not yet
fired. -/
theorem fireLoop_spec (L : List Int) (st : SState) (m : Int) :
    (fireLoop L st).1.maxDepth = st.maxDepth ∧
    (m ∈ (fireLoop L st).1.fired ↔ m ∈ st.fired ∨ (m ∈ L ∧ m ≤ st.maxDepth)) ∧
    countM m (fireLoop L st).2 =
      (if m ∈ L ∧ m ≤ st.maxDepth ∧ m ∉ st.fired then 1 else 0) := by
  induction L generalizing st with
  | nil => simp [fireLoop, countM]
  | cons x ms ih =>
    rw [fireLoop]
    by_cases hc : x ≤ st.maxDepth ∧ x ∉ st.fired
    · rw [if_pos hc]
      dsimp only
      obtain ⟨ih1, ih2, ih3⟩ := ih ⟨st.maxDepth, x :: st.fired⟩
      refine ⟨ih1, ?_, ?_⟩
      · rw [ih2]
        simp only [List.mem_cons]
        by_cases hmx : m = x
        · subst hmx
          constructor
          · intro _
            exact Or.inr ⟨Or.inl rfl, hc.1⟩
          · intro _
            exact Or.inl (Or.inl rfl)
        · constructor
          · rintro ((h | h) | ⟨h1, h2⟩)
            · exact absurd h hmx
            · exact Or.inl h
            · exact Or.inr ⟨Or.inr h1, h2⟩
          · rintro (h | ⟨h1 | h1, h2⟩)
            · exact Or.inl (Or.inr h)
            · exact absurd h1 hmx
            · exact Or.inr ⟨h1, h2⟩
      · have hcons : countM m (mkPost st.maxDepth (some x) ::
              (fireLoop ms ⟨st.maxDepth, x :: st.fired⟩).2) =
            (if x = m then 1 else 0) +
              countM m (fireLoop ms ⟨st.maxDepth, x :: st.fired⟩).2 := by
          simp [countM, mkPost]
        rw [hcons, ih3]
        simp only [List.mem_cons]
        by_cases hmx : m = x
        · subst hmx
          rw [if_pos rfl, if_neg (by simp), if_pos ⟨Or.inl rfl, hc.1, hc.2⟩]
        · rw [if_neg (fun h => hmx h.symm)]
          have hiff : (m ∈ ms ∧ m ≤ st.maxDepth ∧ ¬(m = x ∨ m ∈ st.fired)) ↔
              ((m = x ∨ m ∈ ms) ∧ m ≤ st.maxDepth ∧ ¬m ∈ st.fired) := by tauto
          rw [if_congr hiff rfl rfl]
          omega
    · rw [if_neg hc]
      obtain ⟨ih1, ih2, ih3⟩ := ih st
      have hcx : x ≤ st.maxDepth → x ∈ st.fired := by tauto
      refine ⟨ih1, ?_, ?_⟩
      · rw [ih2]
        simp only [List.mem_cons]
        constructor
        · rintro (h | ⟨h1, h2⟩)
          · exact Or.inl h
          · exact Or.inr ⟨Or.inr h1, h2⟩
        · rintro (h | ⟨h1 | h1, h2⟩)
          · exact Or.inl h
          · subst h1
            exact Or.inl (hcx h2)
          · exact Or.inr ⟨h1, h2⟩
      · rw [ih3]
        simp only [List.mem_cons]
        have hiff : (m ∈ ms ∧ m ≤ st.maxDepth ∧ m ∉ st.fired) ↔
            ((m = x ∨ m ∈ ms) ∧ m ≤ st.maxDepth ∧ m ∉ st.fired) := by
          constructor
          · rintro ⟨h1, h2, h3⟩
            exact ⟨Or.inr h1, h2, h3⟩
          · rintro ⟨h1 | h1, h2, h3⟩
            · subst h1
              exact absurd (hcx h2) h3
            · exact ⟨h1, h2, h3⟩
        rw [if_congr hiff rfl rfl]

set_option maxHeartbeats 1000000 in
/-- Running the script from a state whose fired set agrees with its
maximum (for milestone `m`) keeps that invariant and emits the
milestone-`m` event exactly once iff some step reaches depth `m`. -/
theorem runScroll_spec (ds : List Int) (st : SState) (m : Int) (hm : m ∈ MILESTONES)
    (hI : m ∈ st.fired ↔ m ≤ st.maxDepth) :
    (m ∈ (runScroll st ds).1.fired ↔ m ≤ (runScroll st ds).1.maxDepth) ∧
    countM m (runScroll st ds).2 =
      (if (∃ d ∈ ds, m ≤ d) ∧ m ∉ st.fired then 1 else 0) := by
  induction ds generalizing st with
  | nil =>
    refine ⟨hI, ?_⟩
    simp [runScroll, countM]
  | cons d ds ih =>
    rw [runScroll]
    dsimp only
    have hRHS : ((∃ x ∈ d :: ds, m ≤ x) ∧ m ∉ st.fired) ↔
        ((m ≤ d ∨ ∃ x ∈ ds, m ≤ x) ∧ m ∉ st.fired) := by
      simp only [List.mem_cons]
      constructor
      · rintro ⟨⟨x, rfl | hx, hle⟩, hC⟩
        exacts [⟨Or.inl hle, hC⟩, ⟨Or.inr ⟨x, hx, hle⟩, hC⟩]
      · rintro ⟨h1 | ⟨x, hx, hle⟩, hC⟩
        exacts [⟨⟨d, Or.inl rfl, h1⟩, hC⟩, ⟨⟨x, Or.inr hx, hle⟩, hC⟩]
    by_cases hd : st.maxDepth < d
    · rw [scrollStep, if_pos hd]
      dsimp only
      obtain ⟨f1, f2, f3⟩ := fireLoop_spec MILESTONES ⟨d, st.fired⟩ m
      dsimp only at f1 f2 f3
      have hnf : m ∈ (fireLoop MILESTONES ⟨d, st.fired⟩).1.fired ↔
          (m ∈ st.fired ∨ m ≤ d) := by
        rw [f2]
        constructor
        · rintro (h | ⟨_, h2⟩)
          · exact Or.inl h
          · exact Or.inr h2
        · rintro (h | h)
          · exact Or.inl h
          · exact Or.inr ⟨hm, h⟩
      have hI' : m ∈ (fireLoop MILESTONES ⟨d, st.fired⟩).1.fired ↔
          m ≤ (fireLoop MILESTONES ⟨d, st.fired⟩).1.maxDepth := by
        rw [hnf, f1]
        constructor
        · rintro (h | h)
          · have := hI.mp h
            omega
          · exact h
        · intro h
          exact Or.inr h
      obtain ⟨g1, g2⟩ := ih _ hI'
      refine ⟨g1, ?_⟩
      have hhead : countM m (mkPost d none :: (fireLoop MILESTONES ⟨d, st.fired⟩).2) =
          countM m (fireLoop MILESTONES ⟨d, st.fired⟩).2 := by
        simp [countM, mkPost]
      rw [List.cons_append, countM, countM_append]
      have hzero : (if (mkPost d none).milestone = some m then 1 else 0) = 0 := by
        simp [mkPost]
      have hmid : ((∃ x ∈ ds, m ≤ x) ∧ m ∉ (fireLoop MILESTONES ⟨d, st.fired⟩).1.fired) ↔
          ((∃ x ∈ ds, m ≤ x) ∧ ¬(m ∈ st.fired ∨ m ≤ d)) := by
        rw [hnf]
      rw [hzero, f3, g2, if_congr hRHS rfl rfl, if_congr hmid rfl rfl]
      have hfirst : (m ∈ MILESTONES ∧ m ≤ d ∧ m ∉ st.fired) ↔ (m ≤ d ∧ m ∉ st.fired) :=
        ⟨fun h => ⟨h.2.1, h.2.2⟩, fun h => ⟨hm, h.1, h.2⟩⟩
      rw [if_congr hfirst rfl rfl]
      by_cases h1 : m ≤ d <;> by_cases h2 : m ∈ st.fired <;>
        by_cases h3 : (∃ x ∈ ds, m ≤ x) <;> simp [h1, h2, h3]
    · rw [scrollStep, if_neg hd]
      dsimp only
      obtain ⟨g1, g2⟩ := ih st hI
      refine ⟨g1, ?_⟩
      rw [List.nil_append, g2, if_congr hRHS rfl rfl]
      by_cases h1 : m ≤ d <;> by_cases h2 : m ∈ st.fired <;>
        by_cases h3 : (∃ x ∈ ds, m ≤ x) <;> simp [h1, h2, h3]
      all_goals exact absurd (hI.mpr (by omega)) h2

/-- Every post the milestone loop emits carries the engagement payload
exactly when it is a milestone post. -/
theorem fireLoop_posts_engagement (L : List Int) (st : SState) :
    ∀ p ∈ (fireLoop L st).2, p.engagement = p.milestone.isSome := by
  induction L generalizing st with
  | nil =>
    intro p hp
    simp [fireLoop] at hp
  | cons x ms ih =>
    intro p hp
    rw [fireLoop] at hp
    split_ifs at hp with hc
    · dsimp only at hp
      rcases List.mem_cons.mp hp with rfl | hp2
      · rfl
      · exact ih _ _ hp2
    · exact ih _ _ hp

/-- Every post of a run carries the engagement payload exactly when it is
a milestone post. -/
theorem runScroll_posts_engagement (ds : List Int) (st : SState) :
    ∀ p ∈ (runScroll st ds).2, p.engagement = p.milestone.isSome := by
  induction ds generalizing st with
  | nil =>
    intro p hp
    simp [runScroll] at hp
  | cons d ds ih =>
    intro p hp
    rw [runScroll] at hp
    dsimp only at hp
    rcases List.mem_append.mp hp with hp1 | hp2
    · rw [scrollStep] at hp1
      split_ifs at hp1 with hd
      · dsimp only at hp1
        rcases List.mem_cons.mp hp1 with rfl | hp3
        · rfl
        · exact fireLoop_posts_engagement _ _ _ hp3
      · simp at hp1
    · exact ih _ _ hp2

/-- C8: over any page view (any sequence of computed scroll depths), the
script emits the milestone-`m` event exactly once if some step reaches
depth `m` and never otherwise — in particular never a second time — and
every milestone event carries the session engagement fields. -/
theorem milestone_fired_once (ds : List Int) (m : Int) (hm : m ∈ MILESTONES) :
    countM m (scriptTrace ds) = (if ∃ d ∈ ds, m ≤ d then 1 else 0) ∧
    ∀ p ∈ scriptTrace ds, p.milestone.isSome = true → p.engagement = true := by
  have hmpos : 0 < m := by
    simp only [MILESTONES, List.mem_cons, List.not_mem_nil, or_false] at hm
    rcases hm with rfl | rfl | rfl | rfl <;> norm_num
  have h0 : m ∈ (⟨0, []⟩ : SState).fired ↔ m ≤ (⟨0, []⟩ : SState).maxDepth := by
    constructor
    · intro h
      simp at h
    · intro h
      dsimp only at h
      omega
  obtain ⟨-, h2⟩ := runScroll_spec ds ⟨0, []⟩ m hm h0
  constructor
  · rw [scriptTrace, h2]
    have hc : ((∃ d ∈ ds, m ≤ d) ∧ m ∉ (⟨0, []⟩ : SState).fired) ↔ (∃ d ∈ ds, m ≤ d) := by
      simp
    rw [if_congr hc rfl rfl]
  · intro p hp hs
    rw [scriptTrace] at hp
    rw [runScroll_posts_engagement ds ⟨0, []⟩ p hp, hs]

/-- C8 witness: depths 30 then 60 fire the 25-percent milestone exactly
once. -/
theorem milestone_fired_once_app : countM 25 (scriptTrace [30, 60]) = 1 := by
  have h := (milestone_fired_once [30, 60] 25 (by decide)).1
  rwa [if_pos ⟨30, by decide, by decide⟩] at h
